import Mathlib

/-!
Shallow embedding of the CodeInsight static-analysis pipeline
(`app.py`, `code_analyzer.py`, `main.py`, `profile_1.py`).

The pipeline parses Python source files into a function-level model,
extracts call edges (`CallGraphAnalyzer`), merges per-file results into a
project-wide graph (`analyze_directory`), and attaches per-function
metadata (`EnhancedCodeAnalyzer`, `analyze_file`).  File I/O, the real
Python parser, and the external tools (pylint, bandit, radon) sit outside
the modelled core: parsed modules, per-file read/parse outcomes and
scanner findings are inputs to the embedded functions, exactly at the
boundaries where the source hands data between its own components.
-/

/-! ## Python string primitives

The source uses `str.split`, `str.strip`, `str.lower`, `str.join`,
`str.count` and the `in` substring test.  These are re-implemented over
`List Char` so that every definition evaluates inside the kernel. -/

/-- Python `s.split(sep)` for a one-character separator, accumulator form. -/
def pySplitAux (sep : Char) : List Char → List Char → List (List Char)
  | [], acc => [acc.reverse]
  | c :: rest, acc =>
    if c = sep then acc.reverse :: pySplitAux sep rest []
    else pySplitAux sep rest (c :: acc)

/-- Python `s.split(sep)` for a one-character separator. -/
def pySplit (sep : Char) (s : String) : List String :=
  (pySplitAux sep s.data []).map String.mk

/-- Python `s.strip()` (drop leading and trailing whitespace). -/
def pyStrip (s : String) : String :=
  String.mk (((s.data.dropWhile Char.isWhitespace).reverse.dropWhile Char.isWhitespace).reverse)

/-- Python `s.lower()`. -/
def pyLower (s : String) : String := String.mk (s.data.map Char.toLower)

/-- Python `sep.join(parts)`. -/
def pyJoin (sep : String) : List String → String
  | [] => ""
  | [x] => x
  | x :: rest => x ++ sep ++ pyJoin sep rest

/-- Does `pat` occur at the head of `l`? -/
def matchesFrom : List Char → List Char → Bool
  | [], _ => true
  | _ :: _, [] => false
  | a :: as, b :: bs => a == b && matchesFrom as bs

/-- Substring occurrence over character lists. -/
def pySubstr (needle : List Char) : List Char → Bool
  | [] => matchesFrom needle []
  | c :: t => matchesFrom needle (c :: t) || pySubstr needle t

/-- Python `needle in hay` for strings (substring containment). -/
def pyIn (needle hay : String) : Bool := pySubstr needle.data hay.data

/-- Python `s.count('\n')`: number of newline characters in `s`. -/
def countNl (s : String) : Nat := s.data.count '\n'

/-! ## The Python AST fragment the analyzers traverse

Only node shapes the claims exercise are modelled.  A `functionDef`
carries, besides its body, the fields the analyzers read off the real
node: `lineno`, the parameter names (`args.args`), the result of
`ast.get_docstring` (`docstring`), the unparsed `returns` annotation and
the result of `ast.get_source_segment` (`segment`, `none` when the
segment cannot be extracted). -/

inductive Expr where
  | name (id : String)
  | attr (value : Expr) (attrName : String)
  | call (func : Expr) (args : List Expr)
  | listComp (lineno : Nat) (generators : Nat) (subexprs : List Expr)
  | constant

inductive Stmt where
  | functionDef (lineno : Nat) (fname : String) (args : List String)
      (docstring : Option String) (returns : Option String)
      (segment : Option String) (body : List Stmt)
  | forStmt (lineno : Nat) (target : Expr) (iter : Expr) (body : List Stmt)
  | exprStmt (e : Expr)
  | ret (e : Expr)

/-- A node of the walked tree: the module root, a statement or an
expression, as enumerated by `ast.walk` / `ast.iter_child_nodes`. -/
inductive Node where
  | module (body : List Stmt)
  | stmt (s : Stmt)
  | expr (e : Expr)

mutual
def exprSize : Expr → Nat
  | .name _ => 1
  | .attr v _ => 1 + exprSize v
  | .call f args => 1 + exprSize f + exprsSize args
  | .listComp _ _ subs => 1 + exprsSize subs
  | .constant => 1
def exprsSize : List Expr → Nat
  | [] => 0
  | e :: r => exprSize e + exprsSize r
end

mutual
def stmtSize : Stmt → Nat
  | .functionDef _ _ _ _ _ _ body => 1 + stmtsSize body
  | .forStmt _ t i body => 1 + exprSize t + exprSize i + stmtsSize body
  | .exprStmt e => 1 + exprSize e
  | .ret e => 1 + exprSize e
def stmtsSize : List Stmt → Nat
  | [] => 0
  | s :: r => stmtSize s + stmtsSize r
end

def nodeSize : Node → Nat
  | .module body => 1 + stmtsSize body
  | .stmt s => stmtSize s
  | .expr e => exprSize e

/-- `ast.iter_child_nodes`, restricted to the modelled fields, in the
field order of the real AST (`For`: target, iter, body; `Call`: func,
args). -/
def children : Node → List Node
  | .module body => body.map Node.stmt
  | .stmt (.functionDef _ _ _ _ _ _ body) => body.map Node.stmt
  | .stmt (.forStmt _ t i body) => Node.expr t :: Node.expr i :: body.map Node.stmt
  | .stmt (.exprStmt e) => [Node.expr e]
  | .stmt (.ret e) => [Node.expr e]
  | .expr (.name _) => []
  | .expr (.attr v _) => [Node.expr v]
  | .expr (.call f args) => Node.expr f :: args.map Node.expr
  | .expr (.listComp _ _ subs) => subs.map Node.expr
  | .expr .constant => []

def nodesSize : List Node → Nat
  | [] => 0
  | n :: r => nodeSize n + nodesSize r

theorem nodesSize_map_stmt (l : List Stmt) : nodesSize (l.map Node.stmt) = stmtsSize l := by
  induction l with
  | nil => rfl
  | cons s r ih => simp [List.map, nodesSize, nodeSize, stmtsSize, ih]

theorem nodesSize_map_expr (l : List Expr) : nodesSize (l.map Node.expr) = exprsSize l := by
  induction l with
  | nil => rfl
  | cons s r ih => simp [List.map, nodesSize, nodeSize, exprsSize, ih]

theorem nodesSize_append (a b : List Node) :
    nodesSize (a ++ b) = nodesSize a + nodesSize b := by
  induction a with
  | nil => simp [nodesSize]
  | cons n r ih => simp [List.cons_append, nodesSize, ih]; omega

theorem children_size_lt (n : Node) : nodesSize (children n) < nodeSize n := by
  cases n with
  | module body => simp [children, nodeSize, nodesSize_map_stmt]
  | stmt s =>
    cases s <;>
      simp [children, nodeSize, stmtSize, nodesSize, nodesSize_map_stmt] <;> omega
  | expr e =>
    cases e <;>
      simp [children, nodeSize, exprSize, nodesSize, nodesSize_map_expr]

/-- `ast.walk`: breadth-first enumeration of a node queue (CPython keeps a
deque, pops the front, extends with the node's children and yields the
node). -/
def walk : List Node → List Node
  | [] => []
  | n :: q => n :: walk (q ++ children n)
termination_by q => nodesSize q
decreasing_by
  simp [nodesSize_append, nodesSize]
  have := children_size_lt n
  omega

/-! ## Association-list dictionaries

Python dicts are modelled as association lists in insertion order:
`dictSet` is `d[k] = v` (replace in place, else append), `updateEntry`
mutates the value stored under an existing key, `dictUpdate` is
`d.update(new)`. -/

/-- Python `d[k]` / `d.get(k)`: the value stored under `k`, if any. -/
def alookup (k : String) : List (String × α) → Option α
  | [] => none
  | (a, b) :: tl => if a = k then some b else alookup k tl

def updateEntry (d : List (String × α)) (k : String) (f : α → α) : List (String × α) :=
  d.map (fun p => if p.1 = k then (p.1, f p.2) else p)

def dictSet (d : List (String × α)) (k : String) (v : α) : List (String × α) :=
  if (alookup k d).isSome then updateEntry d k (fun _ => v) else d ++ [(k, v)]

def dictUpdate (d new : List (String × α)) : List (String × α) :=
  new.foldl (fun acc p => dictSet acc p.1 p.2) d

/-! ## CallGraphAnalyzer (`app.py` lines 19-45, identical in `profile_1.py`) -/

structure CGState where
  call_graph : List (String × List String)
  function_code : List (String × String)
  current_function : Option String
deriving DecidableEq

/-- `visit_Call`'s dispatch on `node.func`: a bare `Name` yields its id,
an `Attribute` yields the trailing attribute name, anything else the
placeholder `"unknown"`. -/
def resolveFuncName : Expr → String
  | .name id => id
  | .attr _ a => a
  | _ => "unknown"

/-- The append step of `visit_Call`: when `current_function` is set,
append the resolved target name to its call list; module-level calls
(no current function) are dropped.  When `current_function` is set its
entry always exists in `call_graph` (created by `visit_FunctionDef`), so
the no-entry case of `updateEntry` (where CPython would raise
`KeyError`) is unreachable. -/
def pushCallName (s : CGState) (fn : String) : CGState :=
  match s.current_function with
  | some cf => { s with call_graph := updateEntry s.call_graph cf (fun l => l ++ [fn]) }
  | none => s

mutual
/-- One `ast.NodeVisitor` step on an expression.  `visit_Call` appends the
resolved target name to the current function's list and then
`generic_visit` descends into `func` and `args`; all other expression
shapes only descend. -/
def visitExpr (s : CGState) : Expr → CGState
  | .name _ => s
  | .attr v _ => visitExpr s v
  | .call f args => visitExprs (visitExpr (pushCallName s (resolveFuncName f)) f) args
  | .listComp _ _ subs => visitExprs s subs
  | .constant => s
def visitExprs (s : CGState) : List Expr → CGState
  | [] => s
  | e :: rest => visitExprs (visitExpr s e) rest
end

mutual
/-- One visitor step on a statement.  `visit_FunctionDef` saves the
enclosing function, switches `current_function` to this one, creates the
call-graph entry if absent, stores the source segment (empty string when
`ast.get_source_segment` returned `None`), descends into the body and
restores the enclosing function. -/
def visitStmt (s : CGState) : Stmt → CGState
  | .functionDef _ fname _ _ _ seg body =>
    let s1 : CGState :=
      { call_graph :=
          if (alookup fname s.call_graph).isSome then s.call_graph
          else s.call_graph ++ [(fname, [])]
        function_code := dictSet s.function_code fname (seg.getD "")
        current_function := some fname }
    let s2 := visitStmts s1 body
    { s2 with current_function := s.current_function }
  | .forStmt _ tgt iter body => visitStmts (visitExpr (visitExpr s tgt) iter) body
  | .exprStmt e => visitExpr s e
  | .ret e => visitExpr s e
def visitStmts (s : CGState) : List Stmt → CGState
  | [] => s
  | st :: rest => visitStmts (visitStmt s st) rest
end

/-- `CallGraphAnalyzer.__init__`: empty graphs, no current function. -/
def initState : CGState := ⟨[], [], none⟩

/-! ## EnhancedCodeAnalyzer (`code_analyzer.py`) -/

structure Smell where
  type : String
  name : String
  line : Nat
  description : String
deriving DecidableEq

/-- The view of an astroid `FunctionDef` node read by the `SmellChecker`
closure: `name`, `lineno`, `end_lineno` and `args.args`.  `lineno` and
`end_lineno` are `Nat` with `0` standing for Python's falsy `None`. -/
structure PyFunctionNode where
  name : String
  lineno : Nat
  end_lineno : Nat
  args : List String

/-- `SmellChecker.visit_functiondef` (`code_analyzer.py` lines 42-60):
`long_method` when `end_lineno - lineno > 20` (guarded by the truthiness
of both line numbers), `too_many_parameters` when more than 5 declared
parameters. -/
def smellCheckerVisitFunctiondef (node : PyFunctionNode) : List Smell :=
  (if node.lineno ≠ 0 ∧ node.end_lineno ≠ 0 ∧ node.end_lineno - node.lineno > 20 then
    [⟨"long_method", node.name, node.lineno, "Method is too long (> 20 lines)"⟩]
  else []) ++
  (if node.args.length > 5 then
    [⟨"too_many_parameters", node.name, node.lineno,
      "Method has too many parameters (" ++ toString node.args.length ++ ")"⟩]
  else [])

/-- `detect_code_smells` (`code_analyzer.py` lines 34-63).  The nested
`SmellChecker` class is defined but never registered with the
`Run([self.file_path], do_exit=False)` pylint invocation, so its
`visit_functiondef` never executes and the local `smells` list is
returned unchanged: the function always returns the empty list.
`smellCheckerVisitFunctiondef` above embeds the dead checker's logic. -/
def detect_code_smells (filePath : String) : List Smell := []

structure SecIssue where
  type : String
  severity : String
  line : Nat
  description : String
deriving DecidableEq

structure Duplication where
  line1 : Nat
  line2 : Nat
  code : String
deriving DecidableEq

/-- `find_code_duplication` (`code_analyzer.py` lines 87-102): quadratic
pairwise scan over `source.split('\n')`; a pair `i < j` is reported when
the raw (untrimmed) lines are equal and line `i` is non-blank after
`strip()`; line numbers are 1-based and `code` is the raw line. -/
def find_code_duplication (source : String) : List Duplication :=
  let lines := pySplit '\n' source
  (List.range lines.length).flatMap (fun i =>
    (List.range' (i + 1) (lines.length - (i + 1))).filterMap (fun j =>
      if lines.getD i "" = lines.getD j "" ∧ 0 < (pyStrip (lines.getD i "")).length then
        some ⟨i + 1, j + 1, lines.getD i ""⟩
      else none))

structure PerfIssue where
  type : String
  line : Nat
  description : String
deriving DecidableEq

def forLineno : Node → Option Nat
  | .stmt (.forStmt l _ _ _) => some l
  | _ => none

def listCompInfo : Node → Option (Nat × Nat)
  | .expr (.listComp l g _) => some (l, g)
  | _ => none

/-- `analyze_performance` (`code_analyzer.py` lines 104-129), returning
the `issues` list of the result dict.  First pass: for every `For` node
of `ast.walk(tree)`, one `nested_loop` finding at the outer node's line
per `For` node of `ast.walk(node)` — a walk that starts with, and hence
includes, the node itself.  Second pass: a `complex_list_comp` finding
per `ListComp` with more than one generator. -/
def analyze_performance (module : List Stmt) : List PerfIssue :=
  let tree := walk [Node.module module]
  (tree.flatMap (fun n =>
    match forLineno n with
    | some l =>
      (walk [n]).filterMap (fun c =>
        if (forLineno c).isSome then
          some ⟨"nested_loop", l, "Nested loops detected - potential performance bottleneck"⟩
        else none)
    | none => [])) ++
  tree.filterMap (fun n =>
    match listCompInfo n with
    | some (l, g) =>
      if g > 1 then some ⟨"complex_list_comp", l, "Complex list comprehension detected"⟩
      else none
    | none => none)

structure DocRecord where
  docstring : Option String
  parameters : List String
  return_type : Option String
  line : Nat
deriving DecidableEq

/-- `generate_documentation` (`code_analyzer.py` lines 131-154): walks
the tree and stores, per `FunctionDef` name, the docstring
(`ast.get_docstring`, possibly `None`), the parameter names, the unparsed
return annotation and the starting line; a later same-named declaration
silently overwrites.  `ClassDef` nodes are outside the modelled AST. -/
def generate_documentation (module : List Stmt) : List (String × DocRecord) :=
  (walk [Node.module module]).foldl (fun doc n =>
    match n with
    | .stmt (.functionDef lineno fname args docstring returns _ _) =>
      dictSet doc fname ⟨docstring, args, returns, lineno⟩
    | _ => doc) []

/-! ## FileAnalyzer (`analyze_file`, `app.py` lines 47-68)

The real function opens and parses the file and runs the external
scanners; here the parsed module and the bandit finding list are inputs.
The `complexity` field (radon metrics passed through unchanged from the
external library) is not modelled; no claim concerns it. -/

structure FuncRecord where
  code : String
  calls : List String
  code_smells : List Smell
  security_issues : List SecIssue
  documentation : Option DocRecord
  file : Option String
  breadcrumbs : Option String
deriving DecidableEq

/-- `analyze_file`: runs `CallGraphAnalyzer` and assembles one record per
call-graph key (dict order = first-definition order): the stored source
segment, the accumulated call list, the (always empty) smell list
filtered by name, the bandit findings with
`issue.get('line', 0) >= analyzer.function_code[func].count('\n')`, and
the documentation record for the name, if any. -/
def analyze_file (filePath : String) (module : List Stmt) (vulns : List SecIssue) :
    List (String × FuncRecord) :=
  let analyzer := visitStmts initState module
  let docs := generate_documentation module
  analyzer.call_graph.map (fun p =>
    let code := (alookup p.1 analyzer.function_code).getD ""
    (p.1,
      { code := code
        calls := p.2
        code_smells := (detect_code_smells filePath).filter (fun sm => sm.name = p.1)
        security_issues := vulns.filter (fun issue => countNl code ≤ issue.line)
        documentation := alookup p.1 docs
        file := none
        breadcrumbs := none }))

/-! ## ProjectAggregator (`analyze_directory`, `app.py` lines 70-99)

`os.walk`, `open` and `ast.parse` are the filesystem boundary: the input
is the walk's yield, one entry per discovered `.py` file, carrying the
root-relative path and either the parsed file (plus its scanner
findings) or the exception (`OSError` on read, `SyntaxError` on parse)
that the unguarded `analyze_file` call would raise. -/

inductive AnalyzeError where
  | fileReadError
  | parseError
deriving DecidableEq

structure PyFile where
  module : List Stmt
  vulns : List SecIssue

/-- The per-file decoration inside the walk loop: attach the relative
path and the breadcrumb string `" > ".join(relative_path.split(os.sep))`
to every record of the file's graph (`os.sep` = `'/'`). -/
def decorateAll (relPath : String) (fg : List (String × FuncRecord)) :
    List (String × FuncRecord) :=
  fg.map (fun p =>
    (p.1, { p.2 with
      file := some relPath
      breadcrumbs := some (pyJoin " > " (pySplit '/' relPath)) }))

/-- The walk loop of `analyze_directory`: per file, analyze, decorate and
`complete_graph.update(file_graph)`.  There is no `try`/`except` around
`analyze_file`, so a file whose read or parse raises aborts the loop and
the exception propagates out of `analyze_directory`. -/
def buildComplete (acc : List (String × FuncRecord)) :
    List (String × Except AnalyzeError PyFile) →
    Except AnalyzeError (List (String × FuncRecord))
  | [] => .ok acc
  | (_, .error e) :: _ => .error e
  | (relPath, .ok pf) :: rest =>
    buildComplete
      (dictUpdate acc (decorateAll relPath (analyze_file relPath pf.module pf.vulns))) rest

/-- The filtering pass (`app.py` lines 91-98): keep only calls that name
a key of the merged graph (`defined_functions = set(complete_graph)`,
inlined here) and are not a recognized built-in callable name
(`built_in_names` is computed from `vars(builtins)` at run time and
enters the model as a parameter). -/
def filterPass (built_in_names : List String) (complete : List (String × FuncRecord)) :
    List (String × FuncRecord) :=
  complete.map (fun p =>
    (p.1, { p.2 with
      calls := p.2.calls.filter (fun c =>
        (complete.map Prod.fst).contains c && !built_in_names.contains c) }))

/-- `analyze_directory`: walk, analyze and merge every file, then filter
every record's calls against the merged key set and the built-in set. -/
def analyze_directory (built_in_names : List String)
    (files : List (String × Except AnalyzeError PyFile)) :
    Except AnalyzeError (List (String × FuncRecord)) :=
  (buildComplete [] files).map (filterPass built_in_names)

/-! ## The `/search` route (`search_functions`, `app.py` lines 127-140)

`call_graph_data` is the published ProjectGraph.  For each function the
route evaluates, short-circuiting on `or`:
`query in name.lower() or query in code.lower() or query in
documentation.get('docstring', '').lower()`.  When the documentation
dict exists and its `docstring` key holds `None` (a function without a
docstring), the third disjunct evaluates `None.lower()` and raises
`AttributeError`; when the documentation dict itself is absent,
`.get('documentation', {})` supplies `{}` and `.get('docstring', '')`
supplies `''`. -/

def searchMatch (q : String) (fname : String) (fd : FuncRecord) : Except Unit Bool :=
  if pyIn q (pyLower fname) then .ok true
  else if pyIn q (pyLower fd.code) then .ok true
  else
    match fd.documentation with
    | none => .ok (pyIn q (pyLower ""))
    | some d =>
      match d.docstring with
      | none => .error ()
      | some ds => .ok (pyIn q (pyLower ds))

def searchLoop (q : String) (results : List (String × FuncRecord)) :
    List (String × FuncRecord) → Except Unit (List (String × FuncRecord))
  | [] => .ok results
  | (fname, fd) :: rest =>
    match searchMatch q fname fd with
    | .error e => .error e
    | .ok true => searchLoop q (results ++ [(fname, fd)]) rest
    | .ok false => searchLoop q results rest

/-- `search_functions`: lowercase the query, scan the published graph in
insertion order, collect matches; an `AttributeError` from `None.lower()`
aborts the request. -/
def search_functions (call_graph_data : List (String × FuncRecord)) (query : String) :
    Except Unit (List (String × FuncRecord)) :=
  searchLoop (pyLower query) [] call_graph_data

/-! ## Specification-side definitions for the call-extraction claim

These follow the spec's words (§4.2: name / trailing-attribute /
`unknown` resolution; calls of a nested declaration belong to the inner
function only) and are compared against the `CallGraphAnalyzer`
embedding above. -/

/-- Modelled from the spec: the call-target name of a call expression —
the bare identifier, the trailing attribute name, or `"unknown"`. -/
def specResolve : Expr → String
  | .name id => id
  | .attr _ a => a
  | _ => "unknown"

mutual
/-- Modelled from the spec: the call-target names inside one expression,
in the order the call expressions are encountered (a call's own target
precedes targets found inside its sub-expressions). -/
def specCallTargets : Expr → List String
  | .name _ => []
  | .attr v _ => specCallTargets v
  | .call f args => specResolve f :: (specCallTargets f ++ specTargetList args)
  | .listComp _ _ subs => specTargetList subs
  | .constant => []
def specTargetList : List Expr → List String
  | [] => []
  | e :: r => specCallTargets e ++ specTargetList r
end

mutual
/-- Modelled from the spec: the calls attributed to the function directly
containing these statements — calls under a nested `functionDef` are the
nested function's, not the outer one's. -/
def specDirectCalls : Stmt → List String
  | .functionDef _ _ _ _ _ _ _ => []
  | .forStmt _ t i body => specCallTargets t ++ specCallTargets i ++ specDirectList body
  | .exprStmt e => specCallTargets e
  | .ret e => specCallTargets e
def specDirectList : List Stmt → List String
  | [] => []
  | s :: r => specDirectCalls s ++ specDirectList r
end

mutual
/-- No function definition occurs anywhere in the statement. -/
def stmtNoDefs : Stmt → Bool
  | .functionDef _ _ _ _ _ _ _ => false
  | .forStmt _ _ _ body => stmtsNoDefs body
  | .exprStmt _ => true
  | .ret _ => true
def stmtsNoDefs : List Stmt → Bool
  | [] => true
  | s :: r => stmtNoDefs s && stmtsNoDefs r
end

/-! ## Claim C3 — smell thresholds -/

/-- C3: the smell thresholds of the claim (a 21-line body / 6 parameters
trigger, 20 lines / 5 parameters do not) match the logic of the nested
`SmellChecker.visit_functiondef` — but `detect_code_smells` never runs
that checker (it is never registered with the pylint `Run`), so the
function returns the empty list even for a function whose body spans 21
lines (lines 1-22) with 6 parameters.  The code contradicts the
behaviour its own checker encodes. -/
theorem C3_code_eval :
    detect_code_smells "example.py" = [] ∧
    smellCheckerVisitFunctiondef ⟨"long_fn", 1, 22, ["a", "b", "c", "d", "e", "f"]⟩ =
      [⟨"long_method", "long_fn", 1, "Method is too long (> 20 lines)"⟩,
       ⟨"too_many_parameters", "long_fn", 1, "Method has too many parameters (6)"⟩] ∧
    smellCheckerVisitFunctiondef ⟨"ok_fn", 1, 21, ["a", "b", "c", "d", "e"]⟩ = [] := by
  decide

/-! ## Claim C4 — nested-loop findings -/

/-- C4: `analyze_performance` does not emit one `nested_loop` finding per
outer loop containing another loop.  Because `ast.walk(node)` yields the
node itself first, a single non-nested `for` loop already produces one
finding (the claim says none), and one loop nested inside another
produces three findings — two at the outer loop's line 1 and one at the
inner loop's line 2 — where the claim says exactly one. -/
theorem C4_code_eval :
    analyze_performance [.forStmt 1 (.name "i") (.name "xs") [.exprStmt .constant]] =
      [⟨"nested_loop", 1, "Nested loops detected - potential performance bottleneck"⟩] ∧
    (analyze_performance
      [.forStmt 1 (.name "i") (.name "xs")
        [.forStmt 2 (.name "j") (.name "ys") [.exprStmt .constant]]]).map
      (fun issue => issue.line) = [1, 1, 2] := by
  constructor
  · simp [analyze_performance, walk, children, forLineno, listCompInfo]
  · simp [analyze_performance, walk, children, forLineno, listCompInfo]

/-! ## Claim C5 — line duplication -/

/-- C5 counterexample: the claim attributes duplication findings to pairs
of non-blank lines with identical *trimmed* text, but
`find_code_duplication` compares the raw lines: for the two-line file
`"  x = 1"` / `"x = 1"` the trimmed texts agree and are non-blank, yet
no finding is produced. -/
theorem C5_counterexample :
    find_code_duplication "  x = 1\nx = 1" = [] ∧
    pyStrip "  x = 1" = pyStrip "x = 1" ∧ 0 < (pyStrip "  x = 1").length := by
  decide

/-- C5 (amended): `find_code_duplication` reports the pair
`{line1 := i+1, line2 := j+1, code := line i}` for every pair of indices
`i < j` whose lines are equal as raw (untrimmed) text and non-blank
after `strip()`. -/
theorem C5_duplication_pairs (source : String) (i j : Nat)
    (hij : i < j) (hj : j < (pySplit '\n' source).length)
    (heq : (pySplit '\n' source).getD i "" = (pySplit '\n' source).getD j "")
    (hnb : 0 < (pyStrip ((pySplit '\n' source).getD i "")).length) :
    (⟨i + 1, j + 1, (pySplit '\n' source).getD i ""⟩ : Duplication) ∈
      find_code_duplication source := by
  unfold find_code_duplication
  rw [List.mem_flatMap]
  refine ⟨i, List.mem_range.mpr (by omega), ?_⟩
  rw [List.mem_filterMap]
  refine ⟨j, List.mem_range'_1.mpr (by omega), ?_⟩
  rw [if_pos ⟨heq, hnb⟩]

/-- C5 witness: on the claim's own scenario `["x = 1", "y = 2", "x = 1"]`
the pair `(0, 2)` qualifies and yields the finding
`{line1 := 1, line2 := 3, code := "x = 1"}`, which is moreover the only
finding for that file. -/
theorem C5_duplication_pairs_witness :
    (0 < 2 ∧ 2 < (pySplit '\n' "x = 1\ny = 2\nx = 1").length) ∧
    (⟨1, 3, "x = 1"⟩ : Duplication) ∈ find_code_duplication "x = 1\ny = 2\nx = 1" ∧
    find_code_duplication "x = 1\ny = 2\nx = 1" = [⟨1, 3, "x = 1"⟩] :=
  ⟨by decide, C5_duplication_pairs "x = 1\ny = 2\nx = 1" 0 2
    (by decide) (by decide) (by decide) (by decide), by decide⟩

/-! ## Claim C10 — `/search` over graphs with absent docstrings -/

/-- C10 counterexample: the claim says that one function with an absent
(`None`) docstring makes `search_functions` raise for *every* query.
But the disjunction short-circuits: for the graph holding only `"foo"`
(docstring `None`) and the query `"foo"`, the name test already matches,
the docstring branch is never evaluated, and the search returns the
match normally. -/
theorem C10_counterexample :
    search_functions
      [("foo", ⟨"", [], [], [], some ⟨none, [], none, 1⟩, none, none⟩)] "foo" =
      .ok [("foo", ⟨"", [], [], [], some ⟨none, [], none, 1⟩, none, none⟩)] := by
  rfl

/-- If some entry of the scanned list has a documentation record whose
docstring is `None` and is matched neither by name nor by code, the scan
raises (`None.lower()`), whatever the other entries do. -/
theorem searchLoop_raises (q : String) (fname : String) (fd : FuncRecord)
    (hdoc : ∃ d, fd.documentation = some d ∧ d.docstring = none)
    (hname : pyIn q (pyLower fname) = false)
    (hcode : pyIn q (pyLower fd.code) = false) :
    ∀ (l : List (String × FuncRecord)) (results : List (String × FuncRecord)),
      (fname, fd) ∈ l → searchLoop q results l = .error () := by
  intro l
  induction l with
  | nil => intro results h; cases h
  | cons hd tl ih =>
    intro results hmem
    rcases List.mem_cons.mp hmem with heq | htl
    · obtain ⟨d, hd1, hd2⟩ := hdoc
      simp [searchLoop, ← heq, searchMatch, hname, hcode, hd1, hd2]
    · cases hd with
      | mk hn hf =>
        simp only [searchLoop]
        cases hm : searchMatch q hn hf with
        | error e => rfl
        | ok b => cases b <;> simp <;> exact ih _ htl

/-- C10 (amended): `/search` is not total over published graphs — if the
stored mapping contains a function whose documentation record is present
with an absent (`None`) docstring, then `search_functions` raises
(`None` has no `lower()`) for every query that matches neither that
function's lowercased name nor its lowercased code; only queries caught
by the name or code test before the docstring branch return normally. -/
theorem C10_search_raises (call_graph_data : List (String × FuncRecord)) (query : String)
    (fname : String) (fd : FuncRecord)
    (hmem : (fname, fd) ∈ call_graph_data)
    (hdoc : ∃ d, fd.documentation = some d ∧ d.docstring = none)
    (hname : pyIn (pyLower query) (pyLower fname) = false)
    (hcode : pyIn (pyLower query) (pyLower fd.code) = false) :
    search_functions call_graph_data query = .error () :=
  searchLoop_raises (pyLower query) fname fd hdoc hname hcode call_graph_data [] hmem

/-- C10 witness: a graph holding the single function `"alpha"` (empty
code, docstring `None`) makes the query `"zzz"` raise. -/
theorem C10_search_raises_witness :
    ("alpha", (⟨"", [], [], [], some ⟨none, [], none, 1⟩, none, none⟩ : FuncRecord)) ∈
      [("alpha", (⟨"", [], [], [], some ⟨none, [], none, 1⟩, none, none⟩ : FuncRecord))] ∧
    pyIn (pyLower "zzz") (pyLower "alpha") = false ∧
    search_functions
      [("alpha", ⟨"", [], [], [], some ⟨none, [], none, 1⟩, none, none⟩)] "zzz" = .error () :=
  ⟨by decide, by decide,
    C10_search_raises _ "zzz" "alpha"
      ⟨"", [], [], [], some ⟨none, [], none, 1⟩, none, none⟩
      (by decide) ⟨⟨none, [], none, 1⟩, rfl, rfl⟩ (by decide) (by decide)⟩

/-! ## Claim C2 — per-file error handling -/

/-- C2 counterexample: nothing in `analyze_directory` (or `analyze_file`)
catches a per-file read or parse failure: with a first file whose parse
raises and a second healthy file defining `helper`, the whole run
returns the error, whereas running on the healthy file alone shows the
graph the claim says should have been returned. -/
theorem C2_counterexample :
    analyze_directory []
      [("a.py", .error .parseError),
       ("b.py", .ok ⟨[.functionDef 1 "helper" [] none none
          (some "def helper():\n    pass") []], []⟩)] = .error .parseError ∧
    analyze_directory []
      [("b.py", .ok ⟨[.functionDef 1 "helper" [] none none
          (some "def helper():\n    pass") []], []⟩)] =
      .ok [("helper",
        ⟨"def helper():\n    pass", [], [], [], some ⟨none, [], none, 1⟩,
          some "b.py", some "b.py"⟩)] := by
  constructor
  · rfl
  · simp [analyze_directory, buildComplete, analyze_file, generate_documentation,
      visitStmts, visitStmt, initState, alookup, dictSet, dictUpdate, decorateAll,
      filterPass, walk, children, updateEntry, pyJoin, pySplit, pySplitAux,
      detect_code_smells, Except.map, List.filter]

/-- If some file of the walk raised on read or parse, the whole loop
raises: the first failing file aborts `buildComplete`. -/
theorem buildComplete_error (files : List (String × Except AnalyzeError PyFile)) :
    ∀ acc, (∃ p e, (p, Except.error e) ∈ files) →
      ∃ e, buildComplete acc files = .error e := by
  induction files with
  | nil => intro acc h; obtain ⟨p, e, hm⟩ := h; cases hm
  | cons hd tl ih =>
    intro acc h
    obtain ⟨p, e, hm⟩ := h
    cases hd with
    | mk p0 r0 =>
      cases r0 with
      | error e0 => exact ⟨e0, rfl⟩
      | ok pf =>
        rcases List.mem_cons.mp hm with heq | htl
        · cases heq
        · exact ih _ ⟨p, e, htl⟩

/-- C2 (amended): a file that cannot be read or is not syntactically
valid aborts the whole `analyze_directory` run — the exception from the
unguarded `analyze_file` call propagates and no partial graph built from
the remaining files is returned.  (The claim's skip-and-continue
behaviour does not exist in the code.) -/
theorem C2_error_propagates (built_in_names : List String)
    (files : List (String × Except AnalyzeError PyFile))
    (h : ∃ p e, (p, Except.error e) ∈ files) :
    ∃ e, analyze_directory built_in_names files = .error e := by
  obtain ⟨e, he⟩ := buildComplete_error files [] h
  exact ⟨e, by simp [analyze_directory, he, Except.map]⟩

/-- C2 witness: one unparsable file among the walked files makes the
whole run return its error. -/
theorem C2_error_propagates_witness :
    ("a.py", (Except.error .parseError : Except AnalyzeError PyFile)) ∈
      [("a.py", (Except.error .parseError : Except AnalyzeError PyFile)),
       ("b.py", Except.ok ⟨[], []⟩)] ∧
    ∃ e, analyze_directory []
      [("a.py", Except.error .parseError), ("b.py", Except.ok ⟨[], []⟩)] = .error e :=
  ⟨List.mem_cons_self _ _,
    C2_error_propagates []
      [("a.py", Except.error .parseError), ("b.py", Except.ok ⟨[], []⟩)]
      ⟨"a.py", .parseError, List.mem_cons_self _ _⟩⟩

/-! ## Claim C1 — resolution closure -/

/-- The filtering pass rewrites only the `calls` of each record; the key
list of the graph is unchanged. -/
theorem filterPass_keys (built_in_names : List String)
    (complete : List (String × FuncRecord)) :
    (filterPass built_in_names complete).map Prod.fst = complete.map Prod.fst := by
  simp [filterPass, List.map_map, Function.comp]

/-- C1: resolution closure.  In any graph returned by
`analyze_directory`, every name in a record's `calls` is itself a key of
the returned graph and is not one of the recognized built-in callable
names: the filtering pass keeps exactly the calls inside
`defined_functions` and outside `built_in_names`. -/
theorem C1_resolution_closure (built_in_names : List String)
    (files : List (String × Except AnalyzeError PyFile))
    (g : List (String × FuncRecord)) (n : String) (rec : FuncRecord) (c : String)
    (h : analyze_directory built_in_names files = .ok g)
    (hm : (n, rec) ∈ g) (hc : c ∈ rec.calls) :
    c ∈ g.map Prod.fst ∧ c ∉ built_in_names := by
  cases hb : buildComplete [] files with
  | error e => rw [analyze_directory, hb] at h; simp [Except.map] at h
  | ok complete =>
    rw [analyze_directory, hb] at h
    simp only [Except.map, Except.ok.injEq] at h
    subst h
    rw [filterPass_keys]
    unfold filterPass at hm
    obtain ⟨⟨n0, r0⟩, hp, heq⟩ := List.mem_map.mp hm
    obtain ⟨hn, hr⟩ := Prod.mk.injEq .. ▸ heq
    subst hn
    rw [← hr] at hc
    obtain ⟨hcalls, hpred⟩ := List.mem_filter.mp hc
    simp only [Bool.and_eq_true, Bool.not_eq_true'] at hpred
    obtain ⟨hdef, hbuilt⟩ := hpred
    constructor
    · simpa using hdef
    · intro hmem
      simp at hbuilt
      exact hbuilt hmem

/-- C1 witness: a one-file project where `main` calls `helper` (kept:
project-defined, not built-in) and `print` (dropped: built-in, not
project-defined); the surviving call name is a key of the returned graph
and not a built-in name. -/
theorem C1_resolution_closure_witness :
    "helper" ∈
      ([("helper", (⟨"def helper():\n    pass", [], [], [],
          some ⟨none, [], none, 1⟩, some "m.py", some "m.py"⟩ : FuncRecord)),
        ("main", ⟨"def main():\n    helper()\n    print(1)", ["helper"], [], [],
          some ⟨none, [], none, 3⟩, some "m.py", some "m.py"⟩)].map Prod.fst) ∧
    "helper" ∉ ["print"] :=
  C1_resolution_closure ["print"]
    [("m.py", .ok ⟨[.functionDef 1 "helper" [] none none
        (some "def helper():\n    pass") [],
      .functionDef 3 "main" [] none none
        (some "def main():\n    helper()\n    print(1)")
        [.exprStmt (.call (.name "helper") []),
         .exprStmt (.call (.name "print") [.constant])]], []⟩)]
    [("helper", ⟨"def helper():\n    pass", [], [], [],
        some ⟨none, [], none, 1⟩, some "m.py", some "m.py"⟩),
     ("main", ⟨"def main():\n    helper()\n    print(1)", ["helper"], [], [],
        some ⟨none, [], none, 3⟩, some "m.py", some "m.py"⟩)]
    "main"
    ⟨"def main():\n    helper()\n    print(1)", ["helper"], [], [],
      some ⟨none, [], none, 3⟩, some "m.py", some "m.py"⟩
    "helper"
    (by simp [analyze_directory, buildComplete, analyze_file, generate_documentation,
        visitStmts, visitStmt, visitExpr, visitExprs, resolveFuncName, initState,
        dictSet, dictUpdate, decorateAll, filterPass, walk, children, updateEntry,
        alookup, pyJoin, pySplit, pySplitAux, detect_code_smells, Except.map,
        List.filter] <;> decide)
    (by decide) (by decide)

/-! ## Claim C8 — security-issue attribution -/

/-- C8 counterexample: attribution is not "line past the running offset
of a prior function".  For a file whose only function `f` spans lines
1-4 (source segment with 3 newlines) and a single scanner finding at
line 2 — a line past the zero offset of the (nonexistent) prior
functions and inside `f`'s own span — the finding is *not* attached to
`f`, because the code compares the finding's line against the newline
count of `f`'s own segment (2 < 3). -/
theorem C8_counterexample :
    (alookup "f"
      (analyze_file "f.py"
        [.functionDef 1 "f" [] none none
          (some "def f():\n    x = a\n    y = b\n    return x") []]
        [⟨"B101", "LOW", 2, "test issue"⟩])).map (fun r => r.security_issues) =
      some [] ∧
    countNl "def f():\n    x = a\n    y = b\n    return x" = 3 ∧ 0 < 2 ∧ 2 ≤ 4 := by
  constructor
  · simp [analyze_file, generate_documentation, visitStmts, visitStmt, initState,
      dictSet, dictUpdate, walk, children, updateEntry, detect_code_smells,
      alookup, List.filter, countNl]
  · decide

/-- C8 (amended): a scanner finding is included in a function's
`security_issues` exactly when its line number is at least the number of
newline characters in that function's own extracted source segment —
independent of any prior function and of the function's true span. -/
theorem C8_security_filter (filePath : String) (module : List Stmt)
    (vulns : List SecIssue) (n : String) (rec : FuncRecord)
    (hm : (n, rec) ∈ analyze_file filePath module vulns) :
    rec.security_issues = vulns.filter (fun issue => countNl rec.code ≤ issue.line) := by
  unfold analyze_file at hm
  obtain ⟨⟨n0, calls⟩, hp, heq⟩ := List.mem_map.mp hm
  cases heq
  rfl

/-- C8 witness: the same one-function file with a finding at line 5
(past the 3 newlines of `f`'s segment) does attach the finding, and the
record's issue list equals the filter the amended claim describes. -/
theorem C8_security_filter_witness :
    ("f", (⟨"def f():\n    x = a\n    y = b\n    return x", [], [],
        [⟨"B102", "LOW", 5, "later issue"⟩],
        some ⟨none, [], none, 1⟩, none, none⟩ : FuncRecord)) ∈
      analyze_file "f.py"
        [.functionDef 1 "f" [] none none
          (some "def f():\n    x = a\n    y = b\n    return x") []]
        [⟨"B102", "LOW", 5, "later issue"⟩] ∧
    (⟨"def f():\n    x = a\n    y = b\n    return x", [],
       [], [⟨"B102", "LOW", 5, "later issue"⟩],
       some ⟨none, [], none, 1⟩, none, none⟩ : FuncRecord).security_issues =
      [⟨"B102", "LOW", 5, "later issue"⟩].filter
        (fun issue => countNl "def f():\n    x = a\n    y = b\n    return x" ≤ issue.line) :=
  ⟨by simp [analyze_file, generate_documentation, visitStmts, visitStmt, initState,
      dictSet, dictUpdate, walk, children, updateEntry, detect_code_smells,
      alookup, List.filter, countNl],
    C8_security_filter "f.py"
      [.functionDef 1 "f" [] none none
        (some "def f():\n    x = a\n    y = b\n    return x") []]
      [⟨"B102", "LOW", 5, "later issue"⟩] "f"
      ⟨"def f():\n    x = a\n    y = b\n    return x", [], [],
        [⟨"B102", "LOW", 5, "later issue"⟩], some ⟨none, [], none, 1⟩, none, none⟩
      (by simp [analyze_file, generate_documentation, visitStmts, visitStmt, initState,
        dictSet, dictUpdate, walk, children, updateEntry, detect_code_smells,
        alookup, List.filter, countNl])⟩

/-! ## Claim C9 — file and breadcrumb provenance -/

/-- A value stored by `dictSet` is an old value or the set value. -/
theorem mem_dictSet {d : List (String × α)} {k0 : String} {v0 : α} {k : String} {v : α}
    (h : (k, v) ∈ dictSet d k0 v0) : (k, v) ∈ d ∨ v = v0 := by
  unfold dictSet at h
  split at h
  · obtain ⟨p, hp, heq⟩ := List.mem_map.mp h
    by_cases hk : p.1 = k0
    · rw [if_pos hk] at heq
      right
      exact (Prod.mk.injEq .. ▸ heq).2.symm
    · rw [if_neg hk] at heq
      left
      exact heq ▸ hp
  · rcases List.mem_append.mp h with hd | hnew
    · exact Or.inl hd
    · right
      have := List.mem_singleton.mp hnew
      exact (Prod.mk.injEq .. ▸ this).2

/-- A value stored in `d.update(new)` is an old value or one of `new`'s
values. -/
theorem mem_dictUpdate {new : List (String × α)} :
    ∀ {d : List (String × α)} {k : String} {v : α},
      (k, v) ∈ dictUpdate d new → (k, v) ∈ d ∨ ∃ k0, (k0, v) ∈ new := by
  induction new with
  | nil => intro d k v h; exact Or.inl h
  | cons hd tl ih =>
    intro d k v h
    rcases ih (by simpa [dictUpdate] using h) with hset | ⟨k0, hk0⟩
    · rcases mem_dictSet hset with hold | hv
      · exact Or.inl hold
      · exact Or.inr ⟨hd.1, by rw [hv]; exact List.mem_cons_self _ _⟩
    · exact Or.inr ⟨k0, List.mem_cons_of_mem _ hk0⟩

/-- Every record merged by the walk loop comes from the decorated graph
of one of the walked files. -/
theorem buildComplete_values (P : FuncRecord → Prop) :
    ∀ (files : List (String × Except AnalyzeError PyFile))
      (acc complete : List (String × FuncRecord)),
      (∀ k v, (k, v) ∈ acc → P v) →
      (∀ p pf, (p, Except.ok pf) ∈ files →
        ∀ k v, (k, v) ∈ decorateAll p (analyze_file p pf.module pf.vulns) → P v) →
      buildComplete acc files = .ok complete →
      ∀ k v, (k, v) ∈ complete → P v := by
  intro files
  induction files with
  | nil =>
    intro acc complete hacc _ hok
    cases hok
    exact hacc
  | cons hd tl ih =>
    intro acc complete hacc hfiles hok
    cases hd with
    | mk p0 r0 =>
      cases r0 with
      | error e => cases hok
      | ok pf =>
        refine ih _ _ ?_ ?_ hok
        · intro k v hv
          rcases mem_dictUpdate hv with hold | ⟨k0, hk0⟩
          · exact hacc k v hold
          · exact hfiles p0 pf (List.mem_cons_self _ _) k0 v hk0
        · intro p pf1 hp
          exact hfiles p pf1 (List.mem_cons_of_mem _ hp)

/-- C9: every record of a graph returned by `analyze_directory` carries
the root-relative path of one of the walked files in `file`, and its
`breadcrumbs` are exactly that path's `os.sep`-segments joined with the
literal `" > "` separator. -/
theorem C9_breadcrumbs (built_in_names : List String)
    (files : List (String × Except AnalyzeError PyFile))
    (g : List (String × FuncRecord)) (n : String) (rec : FuncRecord)
    (h : analyze_directory built_in_names files = .ok g) (hm : (n, rec) ∈ g) :
    ∃ p, p ∈ files.map Prod.fst ∧ rec.file = some p ∧
      rec.breadcrumbs = some (pyJoin " > " (pySplit '/' p)) := by
  cases hb : buildComplete [] files with
  | error e => rw [analyze_directory, hb] at h; simp [Except.map] at h
  | ok complete =>
    rw [analyze_directory, hb] at h
    simp only [Except.map, Except.ok.injEq] at h
    subst h
    unfold filterPass at hm
    obtain ⟨⟨n0, r0⟩, hp, heq⟩ := List.mem_map.mp hm
    obtain ⟨hn, hr⟩ := Prod.mk.injEq .. ▸ heq
    have hrec : rec.file = r0.file ∧ rec.breadcrumbs = r0.breadcrumbs := by
      rw [← hr]; exact ⟨rfl, rfl⟩
    have hP := buildComplete_values
      (fun r => ∃ p, p ∈ files.map Prod.fst ∧ r.file = some p ∧
        r.breadcrumbs = some (pyJoin " > " (pySplit '/' p)))
      files [] complete (by intro k v hv; cases hv) ?_ hb n0 r0 hp
    · obtain ⟨p, hpf, hfile, hbc⟩ := hP
      exact ⟨p, hpf, hrec.1.trans hfile, hrec.2.trans hbc⟩
    · intro p pf hpfiles k v hv
      unfold decorateAll at hv
      obtain ⟨q, hq, heq2⟩ := List.mem_map.mp hv
      cases heq2
      exact ⟨p, List.mem_map.mpr ⟨(p, Except.ok pf), hpfiles, rfl⟩, rfl, rfl⟩

/-- C9 witness: a function declared in the file at relative path
`a/b/c.py` ends up with `file = "a/b/c.py"` and
`breadcrumbs = "a > b > c.py"`. -/
theorem C9_breadcrumbs_witness :
    ("f", (⟨"def f():\n    pass", [], [], [], some ⟨none, [], none, 1⟩,
        some "a/b/c.py", some "a > b > c.py"⟩ : FuncRecord)) ∈
      [("f", (⟨"def f():\n    pass", [], [], [], some ⟨none, [], none, 1⟩,
        some "a/b/c.py", some "a > b > c.py"⟩ : FuncRecord))] ∧
    (∃ p, p ∈ (([("a/b/c.py",
        (Except.ok ⟨[.functionDef 1 "f" [] none none
          (some "def f():\n    pass") []], []⟩ : Except AnalyzeError PyFile))] :
        List (String × Except AnalyzeError PyFile)).map Prod.fst) ∧
      (⟨"def f():\n    pass", [], [], [], some ⟨none, [], none, 1⟩,
        some "a/b/c.py", some "a > b > c.py"⟩ : FuncRecord).file = some p ∧
      (⟨"def f():\n    pass", [], [], [], some ⟨none, [], none, 1⟩,
        some "a/b/c.py", some "a > b > c.py"⟩ : FuncRecord).breadcrumbs =
        some (pyJoin " > " (pySplit '/' p))) ∧
    pyJoin " > " (pySplit '/' "a/b/c.py") = "a > b > c.py" :=
  ⟨List.mem_cons_self _ _,
    C9_breadcrumbs []
      [("a/b/c.py", Except.ok ⟨[.functionDef 1 "f" [] none none
        (some "def f():\n    pass") []], []⟩)]
      [("f", ⟨"def f():\n    pass", [], [], [], some ⟨none, [], none, 1⟩,
        some "a/b/c.py", some "a > b > c.py"⟩)]
      "f"
      ⟨"def f():\n    pass", [], [], [], some ⟨none, [], none, 1⟩,
        some "a/b/c.py", some "a > b > c.py"⟩
      (by simp [analyze_directory, buildComplete, analyze_file, generate_documentation,
        visitStmts, visitStmt, initState, dictSet, dictUpdate, decorateAll, filterPass,
        walk, children, updateEntry, alookup, pyJoin, pySplit, pySplitAux,
        detect_code_smells, Except.map, List.filter])
      (List.mem_cons_self _ _),
    by decide⟩


/-! ## Claim C6 — call extraction and attribution

The visitor is related to the spec-side collector: appending targets to
the current function's entry is `pushCur`, and the visitor equations are
proved by mutual induction over the AST. -/

/-- Append a list of call-target names to the current function's entry
(no-op at module level, where there is no current function). -/
def pushCur : Option String → List (String × List String) → List String →
    List (String × List String)
  | none, g, _ => g
  | some f, g, ts => updateEntry g f (fun l => l ++ ts)

theorem updateEntry_congr (d : List (String × α)) (k : String) {p q : α → α}
    (h : ∀ x, p x = q x) : updateEntry d k p = updateEntry d k q := by
  unfold updateEntry
  apply List.map_congr_left
  intro a _
  by_cases hk : a.1 = k <;> simp [hk, h]

theorem updateEntry_id (d : List (String × α)) (k : String) :
    updateEntry d k (fun l => l) = d := by
  unfold updateEntry
  induction d with
  | nil => rfl
  | cons a tl ih => by_cases hk : a.1 = k <;> simp [hk, ih]

theorem updateEntry_comp (d : List (String × α)) (k : String) (p q : α → α) :
    updateEntry (updateEntry d k p) k q = updateEntry d k (fun x => q (p x)) := by
  simp only [updateEntry, List.map_map]
  apply List.map_congr_left
  intro a _
  by_cases hk : a.1 = k <;> simp [Function.comp, hk]

theorem pushCur_nil (cur : Option String) (g : List (String × List String)) :
    pushCur cur g [] = g := by
  cases cur with
  | none => rfl
  | some f =>
    show updateEntry g f (fun l => l ++ []) = g
    exact (updateEntry_congr g f (fun l => List.append_nil l)).trans (updateEntry_id g f)

theorem pushCur_append (cur : Option String) (g : List (String × List String))
    (a b : List String) : pushCur cur (pushCur cur g a) b = pushCur cur g (a ++ b) := by
  cases cur with
  | none => rfl
  | some f =>
    show updateEntry (updateEntry g f (fun l => l ++ a)) f (fun l => l ++ b) =
      updateEntry g f (fun l => l ++ (a ++ b))
    rw [updateEntry_comp]
    exact updateEntry_congr g f (fun l => List.append_assoc l a b)

theorem specResolve_eq (e : Expr) : specResolve e = resolveFuncName e := by
  cases e <;> rfl

theorem pushCallName_eq (s : CGState) (fn : String) :
    pushCallName s fn =
      { s with call_graph := pushCur s.current_function s.call_graph [fn] } := by
  cases s with
  | mk cg fc cur => cases cur <;> rfl

mutual
/-- Induction measure for the visitor lemmas (one unit per list cell so
that every mutual call strictly decreases). -/
def exprMeasure : Expr → Nat
  | .name _ => 1
  | .attr v _ => 1 + exprMeasure v
  | .call f args => 1 + exprMeasure f + exprsMeasure args
  | .listComp _ _ subs => 1 + exprsMeasure subs
  | .constant => 1
def exprsMeasure : List Expr → Nat
  | [] => 0
  | e :: r => 1 + exprMeasure e + exprsMeasure r
end

mutual
/-- Visiting an expression only appends its call targets, in traversal
order, to the current function's entry. -/
theorem visitExpr_eq (s : CGState) (e : Expr) :
    visitExpr s e =
      { s with call_graph :=
          pushCur s.current_function s.call_graph (specCallTargets e) } := by
  cases e with
  | name i => simp [visitExpr, specCallTargets, pushCur_nil]
  | attr v a =>
    rw [show visitExpr s (.attr v a) = visitExpr s v from rfl, visitExpr_eq s v]
    rfl
  | call f args =>
    rw [show visitExpr s (.call f args) =
        visitExprs (visitExpr (pushCallName s (resolveFuncName f)) f) args from rfl,
      visitExpr_eq _ f, visitExprs_eq _ args]
    simp only [pushCallName_eq, specCallTargets, specResolve_eq]
    rw [pushCur_append, pushCur_append]
    simp
  | listComp l gens subs =>
    rw [show visitExpr s (.listComp l gens subs) = visitExprs s subs from rfl,
      visitExprs_eq s subs]
    rfl
  | constant => simp [visitExpr, specCallTargets, pushCur_nil]
termination_by 2 * exprMeasure e
decreasing_by
  all_goals simp [exprMeasure, exprsMeasure]
  all_goals omega

theorem visitExprs_eq (s : CGState) (es : List Expr) :
    visitExprs s es =
      { s with call_graph :=
          pushCur s.current_function s.call_graph (specTargetList es) } := by
  cases es with
  | nil => simp [visitExprs, specTargetList, pushCur_nil]
  | cons e rest =>
    rw [show visitExprs s (e :: rest) = visitExprs (visitExpr s e) rest from rfl,
      visitExpr_eq s e, visitExprs_eq _ rest]
    simp only [specTargetList]
    rw [pushCur_append]
termination_by 2 * exprsMeasure es + 1
decreasing_by
  all_goals simp [exprMeasure, exprsMeasure]
  all_goals omega
end

mutual
def stmtMeasure : Stmt → Nat
  | .functionDef _ _ _ _ _ _ body => 1 + stmtsMeasure body
  | .forStmt _ _ _ body => 1 + stmtsMeasure body
  | .exprStmt _ => 1
  | .ret _ => 1
def stmtsMeasure : List Stmt → Nat
  | [] => 0
  | st :: r => 1 + stmtMeasure st + stmtsMeasure r
end

mutual
/-- Visiting a statement that contains no function definition only
appends the calls directly contained in it to the current function's
entry. -/
theorem visitStmt_noDefs_eq :
    ∀ (st : Stmt), stmtNoDefs st = true → ∀ (s : CGState),
      visitStmt s st =
        { s with call_graph :=
            pushCur s.current_function s.call_graph (specDirectCalls st) }
  | .functionDef _ _ _ _ _ _ _, h, _ => by simp [stmtNoDefs] at h
  | .forStmt l tgt iter body, h, s => by
    rw [show visitStmt s (.forStmt l tgt iter body) =
        visitStmts (visitExpr (visitExpr s tgt) iter) body from rfl,
      visitExpr_eq s tgt, visitExpr_eq _ iter,
      visitStmts_noDefs_eq body (by simpa [stmtNoDefs] using h) _]
    simp only [specDirectCalls]
    rw [pushCur_append, pushCur_append, List.append_assoc]
  | .exprStmt e, _, s => by
    rw [show visitStmt s (.exprStmt e) = visitExpr s e from rfl, visitExpr_eq s e]
    rfl
  | .ret e, _, s => by
    rw [show visitStmt s (.ret e) = visitExpr s e from rfl, visitExpr_eq s e]
    rfl
termination_by st _ _ => 2 * stmtMeasure st
decreasing_by
  all_goals simp [stmtMeasure, stmtsMeasure]
  all_goals omega

theorem visitStmts_noDefs_eq :
    ∀ (l : List Stmt), stmtsNoDefs l = true → ∀ (s : CGState),
      visitStmts s l =
        { s with call_graph :=
            pushCur s.current_function s.call_graph (specDirectList l) }
  | [], _, s => by simp [visitStmts, specDirectList, pushCur_nil]
  | st :: rest, h, s => by
    have hparts := (Bool.and_eq_true _ _).mp (by simpa [stmtsNoDefs] using h)
    rw [show visitStmts s (st :: rest) = visitStmts (visitStmt s st) rest from rfl,
      visitStmt_noDefs_eq st hparts.1 s, visitStmts_noDefs_eq rest hparts.2 _]
    simp only [specDirectList]
    rw [pushCur_append]
termination_by l _ _ => 2 * stmtsMeasure l + 1
decreasing_by
  all_goals simp [stmtMeasure, stmtsMeasure]
  all_goals omega
end

theorem visitStmts_append (a b : List Stmt) :
    ∀ s : CGState, visitStmts s (a ++ b) = visitStmts (visitStmts s a) b := by
  induction a with
  | nil => intro s; rfl
  | cons st rest ih =>
    intro s
    rw [show visitStmts s ((st :: rest) ++ b) = visitStmts (visitStmt s st) (rest ++ b)
      from rfl]
    rw [ih]
    rfl

/-- C6: call extraction and attribution, compared against the spec-side
collector.  For a function `f` whose body consists of def-free
statements `pre`, a nested function `g` with def-free body `mid`, and
def-free statements `post`, the analyzer records under `f` exactly the
call-target names directly contained in `pre` and `post` (resolved as
bare identifier / trailing attribute name / `"unknown"`, in the order
the call expressions are encountered — a call expression's own target
precedes targets found inside its sub-expressions, matching the
visitor's append-then-descend order and the non-decreasing source
positions of the call expressions), and under `g` exactly those of
`mid`: calls inside the nested declaration are attributed to the inner
function only. -/
theorem C6_call_attribution (fL gL : Nat) (f g : String)
    (fargs gargs : List String) (fdoc gdoc frets grets fseg gseg : Option String)
    (pre mid post : List Stmt)
    (hpre : stmtsNoDefs pre = true) (hmid : stmtsNoDefs mid = true)
    (hpost : stmtsNoDefs post = true) (hfg : f ≠ g) :
    alookup f ((visitStmt initState
      (.functionDef fL f fargs fdoc frets fseg
        (pre ++ .functionDef gL g gargs gdoc grets gseg mid :: post))).call_graph) =
      some (specDirectList pre ++ specDirectList post) ∧
    alookup g ((visitStmt initState
      (.functionDef fL f fargs fdoc frets fseg
        (pre ++ .functionDef gL g gargs gdoc grets gseg mid :: post))).call_graph) =
      some (specDirectList mid) := by
  have h0 : visitStmt initState
      (.functionDef fL f fargs fdoc frets fseg
        (pre ++ .functionDef gL g gargs gdoc grets gseg mid :: post)) =
      { visitStmts ⟨[(f, [])], [(f, fseg.getD "")], some f⟩
          (pre ++ .functionDef gL g gargs gdoc grets gseg mid :: post) with
        current_function := none } := rfl
  rw [h0, visitStmts_append]
  rw [visitStmts_noDefs_eq pre hpre _]
  have h1 : pushCur (some f) [(f, [])] (specDirectList pre) = [(f, specDirectList pre)] := by
    simp [pushCur, updateEntry]
  simp only [h1]
  rw [show visitStmts
      ({ call_graph := [(f, specDirectList pre)],
         function_code := [(f, fseg.getD "")], current_function := some f } : CGState)
      (Stmt.functionDef gL g gargs gdoc grets gseg mid :: post) =
      visitStmts (visitStmt
        ({ call_graph := [(f, specDirectList pre)],
           function_code := [(f, fseg.getD "")], current_function := some f } : CGState)
        (.functionDef gL g gargs gdoc grets gseg mid)) post from rfl]
  have h2 : visitStmt
      ({ call_graph := [(f, specDirectList pre)],
         function_code := [(f, fseg.getD "")], current_function := some f } : CGState)
      (.functionDef gL g gargs gdoc grets gseg mid) =
      { visitStmts
          ({ call_graph := [(f, specDirectList pre), (g, [])],
             function_code := dictSet [(f, fseg.getD "")] g (gseg.getD ""),
             current_function := some g } : CGState) mid with
        current_function := some f } := by
    simp [visitStmt, alookup, hfg]
  rw [h2, visitStmts_noDefs_eq mid hmid _]
  have h3 : pushCur (some g) [(f, specDirectList pre), (g, [])] (specDirectList mid) =
      [(f, specDirectList pre), (g, specDirectList mid)] := by
    simp [pushCur, updateEntry, hfg]
  simp only [h3]
  rw [visitStmts_noDefs_eq post hpost _]
  have h4 : pushCur (some f) [(f, specDirectList pre), (g, specDirectList mid)]
      (specDirectList post) =
      [(f, specDirectList pre ++ specDirectList post), (g, specDirectList mid)] := by
    simp [pushCur, updateEntry, Ne.symm hfg]
  simp only [h4]
  constructor
  · simp [alookup]
  · simp [alookup, hfg]

/-- C6 witness: `outer` calls `alpha()` before the nested def and
`mk()()` after it (an unknown-shaped target followed by `mk`), the
nested `inner` calls `obj.meth()`; the analyzer attributes
`["alpha", "unknown", "mk"]` to `outer` and `["meth"]` to `inner`. -/
theorem C6_call_attribution_witness :
    (stmtsNoDefs [Stmt.exprStmt (.call (.name "alpha") [])] = true ∧
      ("outer" : String) ≠ "inner") ∧
    alookup "outer" ((visitStmt initState
      (.functionDef 1 "outer" [] none none none
        ([Stmt.exprStmt (.call (.name "alpha") [])] ++
          Stmt.functionDef 2 "inner" [] none none none
            [Stmt.exprStmt (.call (.attr (.name "obj") "meth") [])] ::
          [Stmt.exprStmt (.call (.call (.name "mk") []) [])]))).call_graph) =
      some ["alpha", "unknown", "mk"] ∧
    alookup "inner" ((visitStmt initState
      (.functionDef 1 "outer" [] none none none
        ([Stmt.exprStmt (.call (.name "alpha") [])] ++
          Stmt.functionDef 2 "inner" [] none none none
            [Stmt.exprStmt (.call (.attr (.name "obj") "meth") [])] ::
          [Stmt.exprStmt (.call (.call (.name "mk") []) [])]))).call_graph) =
      some ["meth"] := by
  have h := C6_call_attribution 1 2 "outer" "inner" [] [] none none none none none none
    [Stmt.exprStmt (.call (.name "alpha") [])]
    [Stmt.exprStmt (.call (.attr (.name "obj") "meth") [])]
    [Stmt.exprStmt (.call (.call (.name "mk") []) [])]
    (by decide) (by decide) (by decide) (by decide)
  exact ⟨⟨by decide, by decide⟩, h.1, h.2⟩

/-! ## Claim C7 — name collisions -/


theorem updateEntry_keys (d : List (String × α)) (k : String) (f : α → α) :
    (updateEntry d k f).map Prod.fst = d.map Prod.fst := by
  unfold updateEntry
  rw [List.map_map]
  apply List.map_congr_left
  intro a _
  by_cases hk : a.1 = k <;> simp [hk]

theorem pushCur_keys (cur : Option String) (g : List (String × List String))
    (ts : List String) : (pushCur cur g ts).map Prod.fst = g.map Prod.fst := by
  cases cur with
  | none => rfl
  | some f =>
    show (updateEntry g f (fun l => l ++ ts)).map Prod.fst = g.map Prod.fst
    exact updateEntry_keys g f _

theorem alookup_cons (k a1 : String) (b : α) (tl : List (String × α)) :
    alookup k ((a1, b) :: tl) = if a1 = k then some b else alookup k tl := rfl

theorem updateEntry_cons (a1 : String) (a2 : α) (tl : List (String × α))
    (k : String) (f : α → α) :
    updateEntry ((a1, a2) :: tl) k f =
      (if a1 = k then (a1, f a2) else (a1, a2)) :: updateEntry tl k f := by
  unfold updateEntry
  rw [List.map_cons]

theorem alookup_eq_none_of_not_mem {d : List (String × α)} {k : String}
    (h : k ∉ d.map Prod.fst) : alookup k d = none := by
  induction d with
  | nil => rfl
  | cons a tl ih =>
    cases a with
    | mk a1 a2 =>
      have hk : a1 ≠ k := by
        intro hx
        exact h (by rw [List.map_cons, hx]; exact List.mem_cons_self _ _)
      rw [alookup_cons, if_neg hk]
      exact ih (fun hx => h (by rw [List.map_cons]; exact List.mem_cons_of_mem _ hx))

theorem alookup_isSome_of_mem {d : List (String × α)} {k : String}
    (h : k ∈ d.map Prod.fst) : (alookup k d).isSome := by
  induction d with
  | nil => cases h
  | cons a tl ih =>
    cases a with
    | mk a1 a2 =>
      by_cases hk : a1 = k
      · rw [alookup_cons, if_pos hk]
        rfl
      · rw [alookup_cons, if_neg hk]
        rw [List.map_cons] at h
        rcases List.mem_cons.mp h with h1 | h2
        · exact absurd h1.symm hk
        · exact ih h2

theorem alookup_map_keyfix (l : List (String × α)) (F : String × α → String × β)
    (hF : ∀ p, (F p).1 = p.1) (k : String) :
    alookup k (l.map F) = (alookup k l).map (fun v => (F (k, v)).2) := by
  induction l with
  | nil => rfl
  | cons a tl ih =>
    cases a with
    | mk a1 a2 =>
      rw [List.map_cons]
      rcases hFp : F (a1, a2) with ⟨b1, b2⟩
      have hb1 : b1 = a1 := by
        have := hF (a1, a2)
        rw [hFp] at this
        exact this
      subst hb1
      by_cases hk : b1 = k
      · subst hk
        rw [alookup_cons, alookup_cons, if_pos rfl, if_pos rfl]
        simp [hFp]
      · rw [alookup_cons, alookup_cons, if_neg hk, if_neg hk]
        exact ih

theorem alookup_filterPass (built_in_names : List String)
    (complete : List (String × FuncRecord)) (n : String) :
    alookup n (filterPass built_in_names complete) =
      (alookup n complete).map (fun rec => { rec with
        calls := rec.calls.filter (fun c =>
          (complete.map Prod.fst).contains c && !built_in_names.contains c) }) :=
  alookup_map_keyfix complete
    (fun p => (p.1, ({ p.2 with
      calls := p.2.calls.filter (fun c =>
        (complete.map Prod.fst).contains c && !built_in_names.contains c) } : FuncRecord)))
    (fun _ => rfl) n

theorem alookup_decorateAll (relPath : String) (fg : List (String × FuncRecord))
    (n : String) :
    alookup n (decorateAll relPath fg) =
      (alookup n fg).map (fun rec => { rec with
        file := some relPath
        breadcrumbs := some (pyJoin " > " (pySplit '/' relPath)) }) :=
  alookup_map_keyfix fg
    (fun p => (p.1, ({ p.2 with
      file := some relPath
      breadcrumbs := some (pyJoin " > " (pySplit '/' relPath)) } : FuncRecord)))
    (fun _ => rfl) n

theorem alookup_updateEntry_self (d : List (String × α)) (k : String) (f : α → α) :
    alookup k (updateEntry d k f) = (alookup k d).map f := by
  induction d with
  | nil => rfl
  | cons a tl ih =>
    cases a with
    | mk a1 a2 =>
      rw [updateEntry_cons]
      by_cases hk : a1 = k
      · rw [if_pos hk, alookup_cons, if_pos hk, alookup_cons, if_pos hk]
        rfl
      · rw [if_neg hk, alookup_cons, if_neg hk, alookup_cons, if_neg hk]
        exact ih

theorem alookup_updateEntry_ne (d : List (String × α)) (k : String) (f : α → α)
    (k' : String) (h : k' ≠ k) : alookup k' (updateEntry d k f) = alookup k' d := by
  induction d with
  | nil => rfl
  | cons a tl ih =>
    cases a with
    | mk a1 a2 =>
      rw [updateEntry_cons]
      by_cases ha : a1 = k
      · have ha' : a1 ≠ k' := fun hx => h (hx.symm.trans ha)
        rw [if_pos ha, alookup_cons, if_neg ha', alookup_cons, if_neg ha']
        exact ih
      · by_cases ha2 : a1 = k'
        · rw [if_neg ha, alookup_cons, if_pos ha2, alookup_cons, if_pos ha2]
        · rw [if_neg ha, alookup_cons, if_neg ha2, alookup_cons, if_neg ha2]
          exact ih

theorem alookup_append_of_none {d : List (String × α)} {k : String}
    (h : alookup k d = none) (l : List (String × α)) :
    alookup k (d ++ l) = alookup k l := by
  induction d with
  | nil => rfl
  | cons a tl ih =>
    cases a with
    | mk a1 a2 =>
      rw [alookup_cons] at h
      by_cases ha : a1 = k
      · rw [if_pos ha] at h
        cases h
      · rw [if_neg ha] at h
        rw [List.cons_append, alookup_cons, if_neg ha]
        exact ih h

theorem alookup_dictSet_self (d : List (String × α)) (k : String) (v : α) :
    alookup k (dictSet d k v) = some v := by
  unfold dictSet
  split
  · rename_i hs
    rw [alookup_updateEntry_self]
    cases ho : alookup k d with
    | none => rw [ho] at hs; cases hs
    | some x => rfl
  · rename_i hs
    have ho : alookup k d = none := Option.not_isSome_iff_eq_none.mp hs
    rw [alookup_append_of_none ho, alookup_cons, if_pos rfl]

theorem alookup_append_single_ne (k : String) (v : α) (k' : String) (h : k' ≠ k) :
    ∀ d : List (String × α), alookup k' (d ++ [(k, v)]) = alookup k' d := by
  intro d
  induction d with
  | nil =>
    have hk : k ≠ k' := fun hx => h hx.symm
    rw [List.nil_append, alookup_cons, if_neg hk]
  | cons a tl ih =>
    cases a with
    | mk a1 a2 =>
      by_cases ha2 : a1 = k'
      · rw [List.cons_append, alookup_cons, if_pos ha2, alookup_cons, if_pos ha2]
      · rw [List.cons_append, alookup_cons, if_neg ha2, alookup_cons, if_neg ha2]
        exact ih

theorem alookup_dictSet_ne (d : List (String × α)) (k : String) (v : α)
    (k' : String) (h : k' ≠ k) : alookup k' (dictSet d k v) = alookup k' d := by
  unfold dictSet
  split
  · exact alookup_updateEntry_ne d k _ k' h
  · exact alookup_append_single_ne k v k' h d

theorem alookup_dictUpdate_not_mem (new : List (String × α)) :
    ∀ (d : List (String × α)) (k : String), k ∉ new.map Prod.fst →
      alookup k (dictUpdate d new) = alookup k d := by
  induction new with
  | nil => intro d k _; rfl
  | cons a tl ih =>
    intro d k hk
    cases a with
    | mk k0 v0 =>
      have h1 : k ≠ k0 := by
        intro hx
        exact hk (by rw [List.map_cons, hx]; exact List.mem_cons_self _ _)
      have h2 : k ∉ tl.map Prod.fst := by
        intro hx
        exact hk (by rw [List.map_cons]; exact List.mem_cons_of_mem _ hx)
      show alookup k (dictUpdate (dictSet d k0 v0) tl) = alookup k d
      rw [ih _ k h2, alookup_dictSet_ne _ _ _ _ h1]

theorem alookup_dictUpdate_mem (new : List (String × α)) :
    ∀ (d : List (String × α)) (k : String) (v : α),
      (new.map Prod.fst).Nodup → alookup k new = some v →
      alookup k (dictUpdate d new) = some v := by
  induction new with
  | nil => intro d k v _ h; cases h
  | cons a tl ih =>
    intro d k v hnd hl
    cases a with
    | mk k0 v0 =>
      rw [List.map_cons] at hnd
      have hnd2 := List.nodup_cons.mp hnd
      by_cases hk : k0 = k
      · subst hk
        rw [alookup_cons, if_pos rfl] at hl
        have hv : v0 = v := by injection hl
        subst hv
        show alookup k0 (dictUpdate (dictSet d k0 v0) tl) = some v0
        rw [alookup_dictUpdate_not_mem tl _ k0 hnd2.1, alookup_dictSet_self]
      · rw [alookup_cons, if_neg hk] at hl
        exact ih _ k v hnd2.2 hl

mutual
/-- The analyzer never duplicates call-graph keys: `visit_FunctionDef`
only appends an entry when the name is absent. -/
theorem visitStmt_keys_nodup :
    ∀ (st : Stmt) (s : CGState), (s.call_graph.map Prod.fst).Nodup →
      (((visitStmt s st).call_graph).map Prod.fst).Nodup
  | .functionDef L fn args doc rets seg body, s, h => by
    show ((visitStmts
      ({ call_graph :=
           if (alookup fn s.call_graph).isSome then s.call_graph
           else s.call_graph ++ [(fn, [])]
         function_code := dictSet s.function_code fn (seg.getD "")
         current_function := some fn } : CGState) body).call_graph.map Prod.fst).Nodup
    apply visitStmts_keys_nodup body
    show ((if (alookup fn s.call_graph).isSome then s.call_graph
      else s.call_graph ++ [(fn, [])]).map Prod.fst).Nodup
    split
    · exact h
    · rename_i hns
      rw [List.map_append,
        show (List.map Prod.fst [(fn, ([] : List String))]) = [fn] from rfl,
        List.nodup_append]
      refine ⟨h, List.nodup_singleton _, ?_⟩
      rw [List.disjoint_singleton]
      exact fun hm => hns (alookup_isSome_of_mem hm)
  | .forStmt L tgt iter body, s, h => by
    show ((visitStmts (visitExpr (visitExpr s tgt) iter) body).call_graph.map Prod.fst).Nodup
    apply visitStmts_keys_nodup body
    rw [visitExpr_eq, visitExpr_eq]
    show ((pushCur s.current_function
      (pushCur s.current_function s.call_graph (specCallTargets tgt))
      (specCallTargets iter)).map Prod.fst).Nodup
    rw [pushCur_keys, pushCur_keys]
    exact h
  | .exprStmt e, s, h => by
    rw [show visitStmt s (.exprStmt e) = visitExpr s e from rfl, visitExpr_eq]
    show ((pushCur s.current_function s.call_graph (specCallTargets e)).map Prod.fst).Nodup
    rw [pushCur_keys]
    exact h
  | .ret e, s, h => by
    rw [show visitStmt s (.ret e) = visitExpr s e from rfl, visitExpr_eq]
    show ((pushCur s.current_function s.call_graph (specCallTargets e)).map Prod.fst).Nodup
    rw [pushCur_keys]
    exact h
termination_by st _ _ => 2 * stmtMeasure st
decreasing_by
  all_goals simp [stmtMeasure, stmtsMeasure]
  all_goals omega

theorem visitStmts_keys_nodup :
    ∀ (l : List Stmt) (s : CGState), (s.call_graph.map Prod.fst).Nodup →
      (((visitStmts s l).call_graph).map Prod.fst).Nodup
  | [], _, h => h
  | st :: rest, s, h => visitStmts_keys_nodup rest _ (visitStmt_keys_nodup st s h)
termination_by l _ _ => 2 * stmtsMeasure l + 1
decreasing_by
  all_goals simp [stmtMeasure, stmtsMeasure]
  all_goals omega
end

theorem analyze_file_keys (filePath : String) (module : List Stmt)
    (vulns : List SecIssue) :
    (analyze_file filePath module vulns).map Prod.fst =
      (visitStmts initState module).call_graph.map Prod.fst := by
  unfold analyze_file
  rw [List.map_map]
  apply List.map_congr_left
  intro a _
  rfl

theorem decorateAll_keys (relPath : String) (fg : List (String × FuncRecord)) :
    (decorateAll relPath fg).map Prod.fst = fg.map Prod.fst := by
  unfold decorateAll
  rw [List.map_map]
  apply List.map_congr_left
  intro a _
  rfl

/-- C7 counterexample: within one file the later declaration does *not*
simply overwrite.  For a file declaring `g0`, `h0`, then `f` (calling
`g0`) and `f` again (calling `h0`), the published record for `f` keeps
the later declaration's source text but its `calls` are the
concatenation `["g0", "h0"]` of both declarations' calls — not the later
declaration's own call list `["h0"]`, as analyzing the later declaration
alone shows. -/
theorem C7_counterexample :
    analyze_directory []
      [("m.py", .ok ⟨[.functionDef 1 "g0" [] none none (some "def g0():\n    pass") [],
        .functionDef 3 "h0" [] none none (some "def h0():\n    pass") [],
        .functionDef 5 "f" [] none none (some "def f():\n    g0()")
          [.exprStmt (.call (.name "g0") [])],
        .functionDef 7 "f" [] none none (some "def f():\n    h0()")
          [.exprStmt (.call (.name "h0") [])]], []⟩)] =
      .ok [("g0", ⟨"def g0():\n    pass", [], [], [],
              some ⟨none, [], none, 1⟩, some "m.py", some "m.py"⟩),
           ("h0", ⟨"def h0():\n    pass", [], [], [],
              some ⟨none, [], none, 3⟩, some "m.py", some "m.py"⟩),
           ("f", ⟨"def f():\n    h0()", ["g0", "h0"], [], [],
              some ⟨none, [], none, 7⟩, some "m.py", some "m.py"⟩)] ∧
    analyze_file "m.py"
      [.functionDef 7 "f" [] none none (some "def f():\n    h0()")
        [.exprStmt (.call (.name "h0") [])]] [] =
      [("f", ⟨"def f():\n    h0()", ["h0"], [], [],
        some ⟨none, [], none, 7⟩, none, none⟩)] ∧
    (["g0", "h0"] : List String) ≠ ["h0"] := by
  refine ⟨?_, ?_, by decide⟩
  · simp [analyze_directory, buildComplete, analyze_file, generate_documentation,
      visitStmts, visitStmt, visitExpr, visitExprs, resolveFuncName, pushCallName,
      initState, alookup, dictSet, dictUpdate, decorateAll, filterPass, walk,
      children, updateEntry, pyJoin, pySplit, pySplitAux, detect_code_smells,
      Except.map, List.filter]
  · simp [analyze_file, generate_documentation, visitStmts, visitStmt, visitExpr,
      visitExprs, resolveFuncName, pushCallName, initState, alookup, dictSet,
      dictUpdate, walk, children, updateEntry, detect_code_smells, List.filter]

/-- Across files the later-processed file's record does overwrite the
earlier one wholesale: the merged record under a shared name is the
later file's record, decorated with the later file's path and
breadcrumbs, with only `calls` rewritten by the global filter pass. -/
theorem analyze_directory_last_file_wins (built_in_names : List String)
    (p1 : String) (pf1 : PyFile) (p2 : String) (pf2 : PyFile)
    (n : String) (r : FuncRecord) (g : List (String × FuncRecord))
    (hr : alookup n (analyze_file p2 pf2.module pf2.vulns) = some r)
    (hok : analyze_directory built_in_names [(p1, .ok pf1), (p2, .ok pf2)] = .ok g) :
    alookup n g = some { r with
      file := some p2
      breadcrumbs := some (pyJoin " > " (pySplit '/' p2))
      calls := r.calls.filter (fun c =>
        (g.map Prod.fst).contains c && !built_in_names.contains c) } := by
  have hbc : buildComplete []
      [(p1, Except.ok pf1), (p2, Except.ok pf2)] =
      .ok (dictUpdate
        (dictUpdate [] (decorateAll p1 (analyze_file p1 pf1.module pf1.vulns)))
        (decorateAll p2 (analyze_file p2 pf2.module pf2.vulns))) := rfl
  rw [analyze_directory, hbc] at hok
  simp only [Except.map, Except.ok.injEq] at hok
  subst hok
  rw [filterPass_keys]
  rw [alookup_filterPass]
  have hn2 : alookup n (decorateAll p2 (analyze_file p2 pf2.module pf2.vulns)) =
      some { r with
        file := some p2
        breadcrumbs := some (pyJoin " > " (pySplit '/' p2)) } := by
    rw [alookup_decorateAll, hr]
    rfl
  have hnodup : ((decorateAll p2 (analyze_file p2 pf2.module pf2.vulns)).map
      Prod.fst).Nodup := by
    rw [decorateAll_keys, analyze_file_keys]
    exact visitStmts_keys_nodup pf2.module initState (by simp [initState])
  rw [alookup_dictUpdate_mem _ _ _ _ hnodup hn2]
  rfl

/-- Within one file, two same-named declarations merge: the later
segment wins in `function_code` but the call lists concatenate. -/
theorem visit_same_name_merge (f : String) (L1 L2 : Nat) (a1 a2 : List String)
    (d1 d2 r1 r2 seg1 seg2 : Option String) (b1 b2 : List Stmt)
    (h1 : stmtsNoDefs b1 = true) (h2 : stmtsNoDefs b2 = true) :
    alookup f ((visitStmts initState
      [.functionDef L1 f a1 d1 r1 seg1 b1,
       .functionDef L2 f a2 d2 r2 seg2 b2]).call_graph) =
      some (specDirectList b1 ++ specDirectList b2) ∧
    alookup f ((visitStmts initState
      [.functionDef L1 f a1 d1 r1 seg1 b1,
       .functionDef L2 f a2 d2 r2 seg2 b2]).function_code) =
      some (seg2.getD "") := by
  have h0 : visitStmts initState
      [.functionDef L1 f a1 d1 r1 seg1 b1, .functionDef L2 f a2 d2 r2 seg2 b2] =
      visitStmt (visitStmt initState (.functionDef L1 f a1 d1 r1 seg1 b1))
        (.functionDef L2 f a2 d2 r2 seg2 b2) := rfl
  have hA : visitStmt initState (.functionDef L1 f a1 d1 r1 seg1 b1) =
      { visitStmts ⟨[(f, [])], [(f, seg1.getD "")], some f⟩ b1 with
        current_function := none } := rfl
  rw [h0, hA, visitStmts_noDefs_eq b1 h1 _]
  have hp1 : pushCur (some f) [(f, [])] (specDirectList b1) =
      [(f, specDirectList b1)] := by
    simp [pushCur, updateEntry]
  simp only [hp1]
  have hB : visitStmt
      ({ call_graph := [(f, specDirectList b1)],
         function_code := [(f, seg1.getD "")],
         current_function := none } : CGState)
      (.functionDef L2 f a2 d2 r2 seg2 b2) =
      { visitStmts
          ({ call_graph := [(f, specDirectList b1)],
             function_code := [(f, seg2.getD "")],
             current_function := some f } : CGState) b2 with
        current_function := none } := by
    simp [visitStmt, alookup, dictSet, updateEntry]
  rw [hB, visitStmts_noDefs_eq b2 h2 _]
  have hp2 : pushCur (some f) [(f, specDirectList b1)] (specDirectList b2) =
      [(f, specDirectList b1 ++ specDirectList b2)] := by
    simp [pushCur, updateEntry]
  simp only [hp2]
  constructor <;> simp [alookup]

/-- C7 (amended): the collision rule is last-writer-wins only across
files — `complete_graph.update(file_graph)` replaces the whole record,
so the published record under a shared name is the later-processed
file's record (decorated, calls filtered).  Within one file the
analyzer merges instead: the later declaration's source segment
overwrites, but the call lists of the same-named declarations are
concatenated in processing order. -/
theorem C7_overwrite :
    (∀ (built_in_names : List String) (p1 : String) (pf1 : PyFile) (p2 : String)
      (pf2 : PyFile) (n : String) (r : FuncRecord) (g : List (String × FuncRecord)),
      alookup n (analyze_file p2 pf2.module pf2.vulns) = some r →
      analyze_directory built_in_names [(p1, .ok pf1), (p2, .ok pf2)] = .ok g →
      alookup n g = some { r with
        file := some p2
        breadcrumbs := some (pyJoin " > " (pySplit '/' p2))
        calls := r.calls.filter (fun c =>
          (g.map Prod.fst).contains c && !built_in_names.contains c) }) ∧
    (∀ (f : String) (L1 L2 : Nat) (a1 a2 : List String)
      (d1 d2 r1 r2 seg1 seg2 : Option String) (b1 b2 : List Stmt),
      stmtsNoDefs b1 = true → stmtsNoDefs b2 = true →
      alookup f ((visitStmts initState
        [.functionDef L1 f a1 d1 r1 seg1 b1,
         .functionDef L2 f a2 d2 r2 seg2 b2]).call_graph) =
        some (specDirectList b1 ++ specDirectList b2) ∧
      alookup f ((visitStmts initState
        [.functionDef L1 f a1 d1 r1 seg1 b1,
         .functionDef L2 f a2 d2 r2 seg2 b2]).function_code) =
        some (seg2.getD "")) :=
  ⟨fun built p1 pf1 p2 pf2 n r g hr hok =>
    analyze_directory_last_file_wins built p1 pf1 p2 pf2 n r g hr hok,
   fun f L1 L2 a1 a2 d1 d2 r1 r2 seg1 seg2 b1 b2 h1 h2 =>
    visit_same_name_merge f L1 L2 a1 a2 d1 d2 r1 r2 seg1 seg2 b1 b2 h1 h2⟩

/-- C7 witness: across files, `b.py`'s record for `f` replaces `a.py`'s
wholesale (decorated with `b.py`'s path, calls filtered); within one
file, two `def f` declarations merge — the later segment, concatenated
calls. -/
theorem C7_overwrite_witness :
    alookup "f" (analyze_file "b.py"
      [.functionDef 1 "f" [] none none (some "def f():\n    f()")
        [.exprStmt (.call (.name "f") [])]] []) =
      some ⟨"def f():\n    f()", ["f"], [], [], some ⟨none, [], none, 1⟩, none, none⟩ ∧
    alookup "f"
      [("f", (⟨"def f():\n    f()", ["f"], [], [], some ⟨none, [], none, 1⟩,
        some "b.py", some "b.py"⟩ : FuncRecord))] =
      some ⟨"def f():\n    f()", ["f"], [], [], some ⟨none, [], none, 1⟩,
        some "b.py", some "b.py"⟩ ∧
    (stmtsNoDefs [Stmt.exprStmt (.call (.name "x") [])] = true ∧
      alookup "f" ((visitStmts initState
        [.functionDef 1 "f" [] none none (some "s1")
          [.exprStmt (.call (.name "x") [])],
         .functionDef 3 "f" [] none none (some "s2")
          [.exprStmt (.call (.name "y") [])]]).call_graph) = some ["x", "y"] ∧
      alookup "f" ((visitStmts initState
        [.functionDef 1 "f" [] none none (some "s1")
          [.exprStmt (.call (.name "x") [])],
         .functionDef 3 "f" [] none none (some "s2")
          [.exprStmt (.call (.name "y") [])]]).function_code) = some "s2") := by
  have hr : alookup "f" (analyze_file "b.py"
      [.functionDef 1 "f" [] none none (some "def f():\n    f()")
        [.exprStmt (.call (.name "f") [])]] []) =
      some ⟨"def f():\n    f()", ["f"], [], [], some ⟨none, [], none, 1⟩, none, none⟩ := by
    simp [analyze_file, generate_documentation, visitStmts, visitStmt, visitExpr,
      visitExprs, resolveFuncName, pushCallName, initState, alookup, dictSet,
      dictUpdate, walk, children, updateEntry, detect_code_smells, List.filter]
  have hok : analyze_directory []
      [("a.py", .ok ⟨[.functionDef 1 "f" [] none none
          (some "def f():\n    pass") []], []⟩),
       ("b.py", .ok ⟨[.functionDef 1 "f" [] none none (some "def f():\n    f()")
          [.exprStmt (.call (.name "f") [])]], []⟩)] =
      .ok [("f", ⟨"def f():\n    f()", ["f"], [], [], some ⟨none, [], none, 1⟩,
        some "b.py", some "b.py"⟩)] := by
    simp [analyze_directory, buildComplete, analyze_file, generate_documentation,
      visitStmts, visitStmt, visitExpr, visitExprs, resolveFuncName, pushCallName,
      initState, alookup, dictSet, dictUpdate, decorateAll, filterPass, walk,
      children, updateEntry, pyJoin, pySplit, pySplitAux, detect_code_smells,
      Except.map, List.filter]
  have ha := C7_overwrite.1 []
    "a.py" ⟨[.functionDef 1 "f" [] none none (some "def f():\n    pass") []], []⟩
    "b.py" ⟨[.functionDef 1 "f" [] none none (some "def f():\n    f()")
      [.exprStmt (.call (.name "f") [])]], []⟩
    "f" ⟨"def f():\n    f()", ["f"], [], [], some ⟨none, [], none, 1⟩, none, none⟩
    [("f", ⟨"def f():\n    f()", ["f"], [], [], some ⟨none, [], none, 1⟩,
      some "b.py", some "b.py"⟩)]
    hr hok
  have hb := C7_overwrite.2 "f" 1 3 [] [] none none none none (some "s1") (some "s2")
    [Stmt.exprStmt (.call (.name "x") [])] [Stmt.exprStmt (.call (.name "y") [])]
    (by decide) (by decide)
  refine ⟨hr, ?_, by decide, hb.1, hb.2⟩
  simpa using ha
